import Mathlib

/-!
Shallow embedding of the OpenDeep Generative Stochastic Network
(src/opendeep/models/multi_layer/generative_stochastic_network.py).

Tensors are modelled row-wise: a `Vec` is one example (one row of a Theano
minibatch; every tensor operation in the source acts independently on the
rows of the minibatch, so a single row captures the per-example semantics
and the feature-axis shapes).  A `Mat` is a weight matrix given as its list
of rows.  Randomness (Theano MRG_RandomStreams) is modelled as an explicit
stream of rational draws with a position counter, threaded through every
operation that draws random numbers in the source.
-/

abbrev Vec := List ℚ

abbrev Mat := List (List ℚ)

/-- Dot product of two vectors. -/
def dotProd (a b : Vec) : ℚ := (List.zipWith (fun x y => x * y) a b).sum

/-- Number of columns of a matrix (length of its first row). -/
def width (W : Mat) : ℕ := (W.headD []).length

/-- Column j of a matrix. -/
def col (W : Mat) (j : ℕ) : Vec := W.map (fun r => r.getD j 0)

/-- Row-vector times matrix: models T.dot(v, W) for one row v of the batch. -/
def matDot (v : Vec) (W : Mat) : Vec :=
  (List.range (width W)).map (fun j => dotProd v (col W j))

/-- Row-vector times transposed matrix: models T.dot(v, W.T). -/
def matDotT (v : Vec) (W : Mat) : Vec := W.map (fun r => dotProd v r)

/-- Elementwise sum of two tensors (lengths always agree under the shape
hypotheses used below). -/
def vecAdd (a b : Vec) : Vec := List.zipWith (fun x y => x + y) a b

/-- Models T.zeros_like. -/
def zeros_like (v : Vec) : Vec := List.replicate v.length 0

/-- Explicit random stream with a position counter, modelling the state of
a seeded Theano MRG_RandomStreams generator. -/
structure Rng where
  stream : ℕ → ℚ
  pos : ℕ

/-- Draw n values from the stream, advancing the position. -/
def Rng.draw (r : Rng) (n : ℕ) : Vec × Rng :=
  ((List.range n).map (fun k => r.stream (r.pos + k)), ⟨r.stream, r.pos + n⟩)

/-- Modelled from the spec: opendeep.utils.noise.salt_and_pepper is imported
by the source file but its code is not part of this repository snapshot.
The spec glossary defines salt-and-pepper noise as masking corruption that
independently zeroes or maximizes a random subset of input features, with
corruption probability given by the scalar parameter.  Each feature draws a
mask value (the feature is corrupted when the draw is below p) and a
salt/pepper value (zero when below 1/2, else one). -/
def salt_and_pepper (v : Vec) (p : ℚ) (r : Rng) : Vec × Rng :=
  let m := r.draw v.length
  let s := m.2.draw v.length
  (List.zipWith (fun x (ms : ℚ × ℚ) => if ms.1 < p then (if ms.2 < 1/2 then 0 else 1) else x)
    v (m.1.zip s.1), s.2)

/-- Modelled from the spec: opendeep.utils.noise.add_gaussian is imported by
the source file but not part of this snapshot; the spec describes it as
adding isotropic Gaussian noise with configurable sigma.  The stream values
stand for the Gaussian draws. -/
def add_gaussian (v : Vec) (std : ℚ) (r : Rng) : Vec × Rng :=
  let g := r.draw v.length
  (List.zipWith (fun x n => x + std * n) v g.1, g.2)

/-- Modelled from the spec: MRG.binomial used for input sampling is external
Theano code; the spec describes it as a Bernoulli draw using the visible
value as probability, elementwise. -/
def binomial_sample (v : Vec) (r : Rng) : Vec × Rng :=
  let u := r.draw v.length
  (List.zipWith (fun x y => if y < x then (1 : ℚ) else 0) v u.1, u.2)

/-- The configuration flags and functions threaded through the graph
builders (the keyword arguments of the GSN static methods). -/
structure GsnCfg where
  add_noise : Bool
  noiseless_h1 : Bool
  hidden_add_noise_sigma : ℚ
  input_salt_and_pepper : ℚ
  input_sampling : Bool
  visible_activation : ℚ → ℚ
  hidden_activation : ℚ → ℚ

/-- The mutable state of a graph build: the hidden-state list `hiddens`
(h0 = visible layer), the reconstruction chain `p_X_chain`, and the random
stream.  The Python code mutates the first two in place. -/
structure GsnState where
  hiddens : List Vec
  chain : List Vec
  rng : Rng

/-- The affine input of layer i computed by GSN.simple_update_layer
(lines 804-818): the visible layer uses its single neighbor through the
transposed first weight matrix, the top layer its single lower neighbor,
and in-between layers both neighbors. -/
def layer_input (weights_list : List Mat) (bias_list : List Vec) (hs : List Vec) (i : ℕ) : Vec :=
  if i = 0 then
    vecAdd (matDotT (hs.getD (i+1) []) (weights_list.getD i [])) (bias_list.getD i [])
  else if i = hs.length - 1 then
    vecAdd (matDot (hs.getD (i-1) []) (weights_list.getD (i-1) [])) (bias_list.getD i [])
  else
    vecAdd (vecAdd (matDotT (hs.getD (i+1) []) (weights_list.getD i []))
      (matDot (hs.getD (i-1) []) (weights_list.getD (i-1) []))) (bias_list.getD i [])

/-- GSN.simple_update_layer (lines 789-860): recompute hiddens[i]; for i = 0
append the visible activation to the chain, then replace h0 with the
(optionally sampled and) salt-and-pepper corrupted value. -/
def simple_update_layer (weights_list : List Mat) (bias_list : List Vec) (cfg : GsnCfg)
    (i : ℕ) (st : GsnState) : GsnState :=
  let dot_i := layer_input weights_list bias_list st.hiddens i
  let noise := if i = 1 ∧ cfg.noiseless_h1 then false else cfg.add_noise
  let pre := if i ≠ 0 ∧ noise then add_gaussian dot_i cfg.hidden_add_noise_sigma st.rng
             else (dot_i, st.rng)
  let act := if i = 0 then pre.1.map cfg.visible_activation else pre.1.map cfg.hidden_activation
  let post := if i ≠ 0 ∧ noise then add_gaussian act cfg.hidden_add_noise_sigma pre.2
              else (act, pre.2)
  if i = 0 then
    let sampled := if cfg.input_sampling then binomial_sample post.1 post.2 else (post.1, post.2)
    let corrupted := salt_and_pepper sampled.1 cfg.input_salt_and_pepper sampled.2
    { hiddens := st.hiddens.set 0 corrupted.1, chain := st.chain ++ [post.1], rng := corrupted.2 }
  else
    { hiddens := st.hiddens.set i post.1, chain := st.chain, rng := post.2 }

/-- The index list of Python range(start, stop, step) for a positive step:
its n = ceil((stop-start)/step) consecutive values start, start+step, ... -/
def stepRange (start n step : ℕ) : List ℕ := (List.range n).map (fun k => start + step * k)

/-- GSN.update_odd_layers (lines 739-755): sequential updates over
range(1, len(hiddens), 2), which has len(hiddens)/2 elements. -/
def update_odd_layers (w : List Mat) (b : List Vec) (cfg : GsnCfg) (st : GsnState) : GsnState :=
  (stepRange 1 (st.hiddens.length / 2) 2).foldl (fun s i => simple_update_layer w b cfg i s) st

/-- GSN.update_even_layers (lines 759-776): sequential updates over
range(0, len(hiddens), 2), which has (len(hiddens)+1)/2 elements. -/
def update_even_layers (w : List Mat) (b : List Vec) (cfg : GsnCfg) (st : GsnState) : GsnState :=
  (stepRange 0 ((st.hiddens.length + 1) / 2) 2).foldl (fun s i => simple_update_layer w b cfg i s) st

/-- GSN.update_layers (lines 664-685): one odd pass followed by one even pass. -/
def update_layers (w : List Mat) (b : List Vec) (cfg : GsnCfg) (st : GsnState) : GsnState :=
  update_even_layers w b cfg (update_odd_layers w b cfg st)

/-- GSN.update_layers_reverse (lines 713-734): one even pass followed by one
odd pass. -/
def update_layers_reverse (w : List Mat) (b : List Vec) (cfg : GsnCfg) (st : GsnState) : GsnState :=
  update_odd_layers w b cfg (update_even_layers w b cfg st)

/-- The zero-initialization of the hidden layers in GSN.build_gsn
(lines 933-935): starting from [X], repeatedly append zeros shaped like the
dot of the last layer with the next weight matrix. -/
def init_hiddens (X : Vec) (w : List Mat) : List Vec :=
  w.foldl (fun acc wi => acc ++ [zeros_like (matDot (acc.getLastD []) wi)]) [X]

/-- GSN.build_gsn (lines 867-942): optionally corrupt X, zero-initialize the
hiddens through the weight chain, run `walkbacks` full update passes, and
return the reconstruction chain and the final hiddens (plus the final
random-stream state, which the Theano generator keeps implicitly). -/
def build_gsn (X : Vec) (w : List Mat) (b : List Vec) (cfg : GsnCfg) (walkbacks : ℕ)
    (rng : Rng) : List Vec × List Vec × Rng :=
  let x0 := if cfg.add_noise then salt_and_pepper X cfg.input_salt_and_pepper rng else (X, rng)
  let stF := (update_layers w b cfg)^[walkbacks] ⟨init_hiddens x0.1 w, [], x0.2⟩
  (stF.chain, stF.hiddens, stF.rng)

/-- GSN.build_gsn_given_hiddens (lines 944-972): start from supplied hiddens,
run `walkbacks` reversed passes, and return the chain, final hiddens, the
summed reconstruction cost and the last cost.  costs[-1] is modelled with
getLastD; the Python raises on an empty list, and the theorems below only
use it with walkbacks ≥ 1, where the chain is nonempty. -/
def build_gsn_given_hiddens (X : Vec) (hiddens : List Vec) (w : List Mat) (b : List Vec)
    (cfg : GsnCfg) (walkbacks : ℕ) (cost_function : Vec → Vec → ℚ) (rng : Rng) :
    List Vec × List Vec × ℚ × ℚ :=
  let stF := (update_layers_reverse w b cfg)^[walkbacks] ⟨hiddens, [], rng⟩
  let costs := stF.chain.map (fun rX => cost_function rX X)
  (stF.chain, stF.hiddens, costs.sum, costs.getLastD 0)

/-- The loop of GSN.pack_hiddens (lines 613-617): collect the layers whose
enumeration index is odd. -/
def pack_aux (idx : ℕ) : List Vec → List Vec
  | [] => []
  | h :: rest => if idx % 2 ≠ 0 then h :: pack_aux (idx+1) rest else pack_aux (idx+1) rest

/-- GSN.pack_hiddens (lines 604-620): concatenate the odd-indexed hidden
layers along the feature axis. -/
def pack_hiddens (hiddens_list : List Vec) : Vec := (pack_aux 0 hiddens_list).flatten

/-- Python column slicing tensor.T[a:b].T applied row-wise. -/
def colSlice (t : Vec) (a b : ℕ) : Vec := (t.drop a).take (b - a)

/-- The loop of GSN.unpack_hiddens (lines 633-639): for each weight index,
append either zeros shaped through the weight chain (odd index) or a column
slice of the packed tensor (even index). -/
def unpack_aux (t : Vec) (layer_sizes : List ℕ) : ℕ → List Vec → List Mat → List Vec
  | _, h_list, [] => h_list
  | idx, h_list, wi :: rest =>
    if idx % 2 ≠ 0 then
      unpack_aux t layer_sizes (idx+1) (h_list ++ [zeros_like (matDot (h_list.getLastD []) wi)]) rest
    else
      unpack_aux t layer_sizes (idx+1)
        (h_list ++ [colSlice t ((idx/2) * layer_sizes.getD idx 0)
          ((idx/2+1) * layer_sizes.getD (idx+1) 0)]) rest

/-- GSN.unpack_hiddens (lines 623-641): rebuild the full hidden-state list
from the packed tensor, zero-filling the even layers (X, weights_list and
layer_sizes are the corresponding attributes of the model). -/
def unpack_hiddens (X : Vec) (weights_list : List Mat) (layer_sizes : List ℕ) (t : Vec) : List Vec :=
  unpack_aux t layer_sizes 0 [zeros_like X] weights_list

/-- The layer-size schedule built in GSN.__init__ (line 149):
[N_input] + [hidden_size] * layers. -/
def layerSizes (N H L : ℕ) : List ℕ := N :: List.replicate L H

/-- The Python exception classes raised by the source file. -/
inductive PyError
  | assertionError
  | notImplementedError
deriving DecidableEq

/-- The configuration surface of GSN.__init__ relevant to its error
handling: an option is `none` when the corresponding argument is missing or
is neither a callable nor a registered name (the string registry lives in
opendeep.utils, outside this snapshot, so a resolvable argument is
modelled directly by its resolved function). -/
structure GsnArgs where
  input_size : Option ℕ
  layers : ℕ
  walkbacks : ℕ
  hidden_activation : Option (ℚ → ℚ)
  visible_activation : Option (ℚ → ℚ)
  cost_function : Option (Vec → Vec → ℚ)

/-- The successfully constructed model attributes set by GSN.__init__. -/
structure GsnModelRec where
  N_input : ℕ
  layers : ℕ
  walkbacks : ℕ
  hidden_activation : ℚ → ℚ
  visible_activation : ℚ → ℚ
  cost_function : Vec → Vec → ℚ

/-- The walkback-sufficiency check of GSN.__init__ (lines 131-138). -/
def walkback_warning (layers walkbacks : ℕ) : Bool :=
  if layers % 2 = 0 then decide (walkbacks < 2 * layers) else decide (walkbacks < 2 * layers - 1)

/-- GSN.__init__ (lines 104-185), restricted to its validation logic: a
missing input dimensionality raises AssertionError (line 110); the
walkback check only logs a warning (lines 131-138); a missing hidden or
visible activation or cost function raises NotImplementedError (lines
163, 174, 185).  Returns the logged warnings and either the error raised
or the constructed attributes. -/
def gsn_init (a : GsnArgs) : List String × Except PyError GsnModelRec :=
  match a.input_size with
  | none => ([], Except.error PyError.assertionError)
  | some n =>
    let warnings := if walkback_warning a.layers a.walkbacks then
        ["Not enough walkbacks for the layers!"] else []
    match a.hidden_activation with
    | none => (warnings, Except.error PyError.notImplementedError)
    | some hact =>
      match a.visible_activation with
      | none => (warnings, Except.error PyError.notImplementedError)
      | some vact =>
        match a.cost_function with
        | none => (warnings, Except.error PyError.notImplementedError)
        | some cf => (warnings, Except.ok ⟨n, a.layers, a.walkbacks, hact, vact, cf⟩)

/-- The attributes consulted by the usage-order checks: each is `none`
exactly when build_computation_graph has not set it (hasattr in the
source). -/
structure GsnRuntime where
  f_predict : Option (Vec → Vec)
  hiddens : Option (List Vec)
  output : Option Vec

/-- GSN.predict (lines 430-452): raises NotImplementedError when f_predict
has not been compiled. -/
def predict (m : GsnRuntime) (input : Vec) : Except PyError Vec :=
  match m.f_predict with
  | none => Except.error PyError.notImplementedError
  | some f => Except.ok (f input)

/-- GSN.get_hiddens (lines 396-410): raises NotImplementedError when the
hidden representation has not been built, else packs it. -/
def get_hiddens (m : GsnRuntime) : Except PyError Vec :=
  match m.hiddens with
  | none => Except.error PyError.notImplementedError
  | some hs => Except.ok (pack_hiddens hs)

/-- GSN.get_outputs (lines 412-428): raises NotImplementedError when the
output has not been built. -/
def get_outputs (m : GsnRuntime) : Except PyError Vec :=
  match m.output with
  | none => Except.error PyError.notImplementedError
  | some o => Except.ok o

/-- Shape predicate for a weight matrix: n rows, all of length m, and m
columns. -/
def MatShape (W : Mat) (n m : ℕ) : Prop :=
  W.length = n ∧ (∀ r ∈ W, r.length = m) ∧ width W = m

/-- The weights list matches the layer-size schedule: one matrix per
adjacent layer pair, of shape (sizes[i], sizes[i+1]). -/
def WeightsShape (w : List Mat) (sizes : List ℕ) : Prop :=
  w.length + 1 = sizes.length ∧
    ∀ i, i < w.length → MatShape (w.getD i []) (sizes.getD i 0) (sizes.getD (i+1) 0)

/-- The bias list matches the layer-size schedule: one vector per layer. -/
def BiasShape (b : List Vec) (sizes : List ℕ) : Prop :=
  b.length = sizes.length ∧ ∀ i, i < b.length → (b.getD i []).length = sizes.getD i 0

/-- A hidden-state list matches the layer-size schedule. -/
def ShapeOk (sizes : List ℕ) (hs : List Vec) : Prop :=
  hs.length = sizes.length ∧ ∀ i, (hs.getD i []).length = sizes.getD i 0

/-- The sum of the widths of the odd-indexed layers of a schedule. -/
def oddWidthSum (sizes : List ℕ) : ℕ :=
  (((List.range sizes.length).filter (fun i => i % 2 = 1)).map (fun i => sizes.getD i 0)).sum

/-! Basic length and indexing lemmas. -/

theorem length_matDot (v : Vec) (W : Mat) : (matDot v W).length = width W := by
  simp [matDot]

theorem length_matDotT (v : Vec) (W : Mat) : (matDotT v W).length = W.length := by
  simp [matDotT]

theorem length_vecAdd (a b : Vec) : (vecAdd a b).length = min a.length b.length := by
  simp [vecAdd]

theorem length_draw (r : Rng) (n : ℕ) : (r.draw n).1.length = n := by
  simp [Rng.draw]

theorem length_salt_and_pepper (v : Vec) (p : ℚ) (r : Rng) :
    (salt_and_pepper v p r).1.length = v.length := by
  simp [salt_and_pepper, Rng.draw]

theorem length_add_gaussian (v : Vec) (s : ℚ) (r : Rng) :
    (add_gaussian v s r).1.length = v.length := by
  simp [add_gaussian, Rng.draw]

theorem length_binomial_sample (v : Vec) (r : Rng) :
    (binomial_sample v r).1.length = v.length := by
  simp [binomial_sample, Rng.draw]

theorem zeros_like_matDot (v : Vec) (W : Mat) :
    zeros_like (matDot v W) = List.replicate (width W) 0 := by
  simp [zeros_like, length_matDot]

theorem getD_set_ne {α : Type} (l : List α) (i j : ℕ) (x d : α) (h : i ≠ j) :
    (l.set i x).getD j d = l.getD j d := by
  induction l generalizing i j with
  | nil => simp
  | cons a t ih =>
    cases i with
    | zero =>
      cases j with
      | zero => exact absurd rfl h
      | succ j => simp [List.getD_cons_succ]
    | succ i =>
      cases j with
      | zero => simp [List.getD_cons_zero]
      | succ j =>
        simp only [List.set_cons_succ, List.getD_cons_succ]
        exact ih i j (by omega)

theorem getD_set_self {α : Type} (l : List α) (i : ℕ) (x d : α) (h : i < l.length) :
    (l.set i x).getD i d = x := by
  induction l generalizing i with
  | nil => simp at h
  | cons a t ih =>
    cases i with
    | zero => simp
    | succ i =>
      simp only [List.set_cons_succ, List.getD_cons_succ]
      exact ih i (by simpa using h)

theorem getD_append_left {α : Type} (l m : List α) (i : ℕ) (d : α) (h : i < l.length) :
    (l ++ m).getD i d = l.getD i d := by
  induction l generalizing i with
  | nil => simp at h
  | cons a t ih =>
    cases i with
    | zero => simp
    | succ i =>
      simp only [List.cons_append, List.getD_cons_succ]
      exact ih i (by simpa using h)

theorem getD_of_le_length {α : Type} (l : List α) (i : ℕ) (d : α) (h : l.length ≤ i) :
    l.getD i d = d := by
  induction l generalizing i with
  | nil => simp [List.getD]
  | cons a t ih =>
    cases i with
    | zero => simp at h
    | succ i =>
      simp only [List.getD_cons_succ]
      exact ih i (by simpa using h)

theorem mem_getD {α : Type} (l : List α) (v d : α) (h : v ∈ l) :
    ∃ k, k < l.length ∧ l.getD k d = v := by
  induction l with
  | nil => simp at h
  | cons a t ih =>
    rcases List.mem_cons.mp h with h1 | h1
    · exact ⟨0, by simp, by simp [h1.symm]⟩
    · obtain ⟨k, hk, hv⟩ := ih h1
      exact ⟨k + 1, by simpa using hk, by simpa using hv⟩

theorem getD_map_replicate (w : List Mat) (j : ℕ) (hj : j < w.length) :
    ((w.map (fun wi => List.replicate (width wi) (0 : ℚ))).getD j []) =
      List.replicate (width (w.getD j [])) 0 := by
  induction w generalizing j with
  | nil => simp at hj
  | cons a t ih =>
    cases j with
    | zero => simp
    | succ j => simpa using ih j (by simpa using hj)

theorem sum_map_const {l : List ℕ} {f : ℕ → ℕ} {c : ℕ} (h : ∀ x ∈ l, f x = c) :
    (l.map f).sum = l.length * c := by
  induction l with
  | nil => simp
  | cons a t ih =>
    simp only [List.map_cons, List.sum_cons, List.length_cons]
    rw [h a (by simp), ih (fun x hx => h x (by simp [hx]))]
    ring

theorem stepRange_succ (start n step : ℕ) :
    stepRange start (n+1) step = start :: stepRange (start + step) n step := by
  simp only [stepRange, List.range_succ_eq_map, List.map_cons, List.map_map, Nat.mul_zero,
    Nat.add_zero]
  congr 1
  apply List.map_congr_left
  intro x _
  simp only [Function.comp_apply, Nat.succ_eq_add_one, Nat.mul_add, Nat.mul_one]
  omega

theorem mem_stepRange {x start n step : ℕ} (h : x ∈ stepRange start n step) :
    ∃ k, k < n ∧ x = start + step * k := by
  simp only [stepRange, List.mem_map, List.mem_range] at h
  obtain ⟨k, hk, hx⟩ := h
  exact ⟨k, hk, hx.symm⟩

/-! Structure of a single layer update. -/

/-- The tensor appended to the reconstruction chain at the visible layer:
the visible activation of the affine input, before sampling and before
corruption (line 847 of the source). -/
def visible_reconstruction (w : List Mat) (b : List Vec) (cfg : GsnCfg) (st : GsnState) : Vec :=
  (layer_input w b st.hiddens 0).map cfg.visible_activation

theorem sul_chain_zero (w : List Mat) (b : List Vec) (cfg : GsnCfg) (st : GsnState) :
    (simple_update_layer w b cfg 0 st).chain = st.chain ++ [visible_reconstruction w b cfg st] := by
  simp [simple_update_layer, visible_reconstruction]

theorem sul_chain_ne (w : List Mat) (b : List Vec) (cfg : GsnCfg) (i : ℕ) (st : GsnState)
    (hi : i ≠ 0) : (simple_update_layer w b cfg i st).chain = st.chain := by
  simp [simple_update_layer, hi]

theorem sul_hiddens_length (w : List Mat) (b : List Vec) (cfg : GsnCfg) (i : ℕ) (st : GsnState) :
    (simple_update_layer w b cfg i st).hiddens.length = st.hiddens.length := by
  by_cases h0 : i = 0 <;> simp [simple_update_layer, h0]

theorem sul_set_form (w : List Mat) (b : List Vec) (cfg : GsnCfg) (i : ℕ) (st : GsnState) :
    ∃ val : Vec, val.length = (layer_input w b st.hiddens i).length ∧
      (simple_update_layer w b cfg i st).hiddens = st.hiddens.set i val := by
  unfold simple_update_layer
  by_cases h0 : i = 0
  · subst h0
    by_cases hsamp : cfg.input_sampling
    · refine ⟨(salt_and_pepper
          (binomial_sample (List.map cfg.visible_activation (layer_input w b st.hiddens 0))
            st.rng).1 cfg.input_salt_and_pepper
          (binomial_sample (List.map cfg.visible_activation (layer_input w b st.hiddens 0))
            st.rng).2).1, ?_, ?_⟩
      · simp [length_salt_and_pepper, length_binomial_sample]
      · simp [hsamp]
    · refine ⟨(salt_and_pepper (List.map cfg.visible_activation (layer_input w b st.hiddens 0))
          cfg.input_salt_and_pepper st.rng).1, ?_, ?_⟩
      · simp [length_salt_and_pepper]
      · simp [hsamp]
  · by_cases hn : (if i = 1 ∧ cfg.noiseless_h1 then false else cfg.add_noise) = true
    · refine ⟨(add_gaussian
          (List.map cfg.hidden_activation
            (add_gaussian (layer_input w b st.hiddens i) cfg.hidden_add_noise_sigma st.rng).1)
          cfg.hidden_add_noise_sigma
          (add_gaussian (layer_input w b st.hiddens i) cfg.hidden_add_noise_sigma
            st.rng).2).1, ?_, ?_⟩
      · simp [length_add_gaussian]
      · simp [h0, hn]
    · refine ⟨List.map cfg.hidden_activation (layer_input w b st.hiddens i), ?_, ?_⟩
      · simp
      · simp [h0, hn]

theorem sul_noise_free (w : List Mat) (b : List Vec) (cfg : GsnCfg) (i : ℕ) (st : GsnState)
    (hn : cfg.add_noise = false) (hi : i ≠ 0) :
    simple_update_layer w b cfg i st =
      ⟨st.hiddens.set i ((layer_input w b st.hiddens i).map cfg.hidden_activation),
        st.chain, st.rng⟩ := by
  simp [simple_update_layer, hn, hi]

/-! Folds of layer updates over an index list. -/

theorem foldl_chain_ne (w : List Mat) (b : List Vec) (cfg : GsnCfg) (idxs : List ℕ)
    (st : GsnState) (h : ∀ i ∈ idxs, i ≠ 0) :
    (idxs.foldl (fun s i => simple_update_layer w b cfg i s) st).chain = st.chain := by
  induction idxs generalizing st with
  | nil => rfl
  | cons i rest ih =>
    simp only [List.foldl_cons]
    rw [ih _ (fun j hj => h j (by simp [hj])), sul_chain_ne _ _ _ _ _ (h i (by simp))]

theorem foldl_chain_extend (w : List Mat) (b : List Vec) (cfg : GsnCfg) (idxs : List ℕ)
    (st : GsnState) :
    ∃ e, (idxs.foldl (fun s i => simple_update_layer w b cfg i s) st).chain = st.chain ++ e := by
  induction idxs generalizing st with
  | nil => exact ⟨[], by simp⟩
  | cons i rest ih =>
    simp only [List.foldl_cons]
    obtain ⟨e, he⟩ := ih (simple_update_layer w b cfg i st)
    by_cases h0 : i = 0
    · subst h0
      rw [he, sul_chain_zero]
      exact ⟨visible_reconstruction w b cfg st :: e, by simp⟩
    · rw [he, sul_chain_ne _ _ _ _ _ h0]
      exact ⟨e, rfl⟩

theorem foldl_hiddens_length (w : List Mat) (b : List Vec) (cfg : GsnCfg) (idxs : List ℕ)
    (st : GsnState) :
    (idxs.foldl (fun s i => simple_update_layer w b cfg i s) st).hiddens.length =
      st.hiddens.length := by
  induction idxs generalizing st with
  | nil => rfl
  | cons i rest ih =>
    simp only [List.foldl_cons]
    rw [ih, sul_hiddens_length]

theorem foldl_hiddens_frame (w : List Mat) (b : List Vec) (cfg : GsnCfg) (idxs : List ℕ)
    (st : GsnState) (j : ℕ) (h : ∀ i ∈ idxs, i ≠ j) :
    (idxs.foldl (fun s i => simple_update_layer w b cfg i s) st).hiddens.getD j [] =
      st.hiddens.getD j [] := by
  induction idxs generalizing st with
  | nil => rfl
  | cons i rest ih =>
    simp only [List.foldl_cons]
    rw [ih _ (fun x hx => h x (by simp [hx]))]
    obtain ⟨val, _, hset⟩ := sul_set_form w b cfg i st
    rw [hset, getD_set_ne _ _ _ _ _ (h i (by simp))]

theorem foldl_noise_free (w : List Mat) (b : List Vec) (cfg : GsnCfg) (idxs : List ℕ)
    (hs c : List Vec) (r : Rng) (hn : cfg.add_noise = false) (hne : ∀ i ∈ idxs, i ≠ 0) :
    idxs.foldl (fun s i => simple_update_layer w b cfg i s) ⟨hs, c, r⟩ =
      ⟨idxs.foldl (fun h i => h.set i ((layer_input w b h i).map cfg.hidden_activation)) hs,
        c, r⟩ := by
  induction idxs generalizing hs with
  | nil => rfl
  | cons i rest ih =>
    simp only [List.foldl_cons]
    rw [sul_noise_free _ _ _ _ _ hn (hne i (by simp))]
    exact ih _ (fun j hj => hne j (by simp [hj]))

/-! Parity facts about the update index lists. -/

theorem stepRange_odd {x n : ℕ} (h : x ∈ stepRange 1 n 2) : x % 2 = 1 := by
  obtain ⟨k, _, rfl⟩ := mem_stepRange h
  omega

theorem stepRange_even {x n : ℕ} (h : x ∈ stepRange 0 n 2) : x % 2 = 0 := by
  obtain ⟨k, _, rfl⟩ := mem_stepRange h
  omega

theorem stepRange_odd_lt {x n : ℕ} (h : x ∈ stepRange 1 (n / 2) 2) : x < n := by
  obtain ⟨k, hk, rfl⟩ := mem_stepRange h
  omega

theorem stepRange_even_lt {x n : ℕ} (h : x ∈ stepRange 0 ((n + 1) / 2) 2) : x < n := by
  obtain ⟨k, hk, rfl⟩ := mem_stepRange h
  omega

/-! Pass-level lemmas. -/

theorem update_odd_chain (w : List Mat) (b : List Vec) (cfg : GsnCfg) (st : GsnState) :
    (update_odd_layers w b cfg st).chain = st.chain :=
  foldl_chain_ne _ _ _ _ _ (fun _ hi => by have := stepRange_odd hi; omega)

theorem update_even_chain (w : List Mat) (b : List Vec) (cfg : GsnCfg) (st : GsnState)
    (hne : st.hiddens ≠ []) :
    (update_even_layers w b cfg st).chain = st.chain ++ [visible_reconstruction w b cfg st] := by
  unfold update_even_layers
  obtain ⟨m, hm⟩ : ∃ m, (st.hiddens.length + 1) / 2 = m + 1 := by
    have : st.hiddens.length ≠ 0 := by simpa [List.length_eq_zero] using hne
    exact ⟨(st.hiddens.length + 1) / 2 - 1, by omega⟩
  rw [hm, stepRange_succ]
  simp only [List.foldl_cons]
  rw [foldl_chain_ne _ _ _ _ _ (fun i hi => by obtain ⟨k, _, rfl⟩ := mem_stepRange hi; omega),
    sul_chain_zero]

theorem update_odd_hiddens_length (w : List Mat) (b : List Vec) (cfg : GsnCfg) (st : GsnState) :
    (update_odd_layers w b cfg st).hiddens.length = st.hiddens.length :=
  foldl_hiddens_length _ _ _ _ _

theorem update_even_hiddens_length (w : List Mat) (b : List Vec) (cfg : GsnCfg) (st : GsnState) :
    (update_even_layers w b cfg st).hiddens.length = st.hiddens.length :=
  foldl_hiddens_length _ _ _ _ _

theorem update_layers_hiddens_length (w : List Mat) (b : List Vec) (cfg : GsnCfg)
    (st : GsnState) : (update_layers w b cfg st).hiddens.length = st.hiddens.length := by
  unfold update_layers
  rw [update_even_hiddens_length, update_odd_hiddens_length]

theorem update_layers_reverse_hiddens_length (w : List Mat) (b : List Vec) (cfg : GsnCfg)
    (st : GsnState) : (update_layers_reverse w b cfg st).hiddens.length = st.hiddens.length := by
  unfold update_layers_reverse
  rw [update_odd_hiddens_length, update_even_hiddens_length]

theorem update_layers_chain (w : List Mat) (b : List Vec) (cfg : GsnCfg) (st : GsnState)
    (hne : st.hiddens ≠ []) :
    (update_layers w b cfg st).chain =
      st.chain ++ [visible_reconstruction w b cfg (update_odd_layers w b cfg st)] := by
  unfold update_layers
  have hne2 : (update_odd_layers w b cfg st).hiddens ≠ [] := by
    have := update_odd_hiddens_length w b cfg st
    intro hcon
    rw [hcon] at this
    exact hne (List.length_eq_zero.mp this.symm)
  rw [update_even_chain _ _ _ _ hne2, update_odd_chain]

theorem update_layers_reverse_chain (w : List Mat) (b : List Vec) (cfg : GsnCfg) (st : GsnState)
    (hne : st.hiddens ≠ []) :
    (update_layers_reverse w b cfg st).chain =
      st.chain ++ [visible_reconstruction w b cfg st] := by
  unfold update_layers_reverse
  rw [update_odd_chain, update_even_chain _ _ _ _ hne]

theorem update_layers_chain_extend (w : List Mat) (b : List Vec) (cfg : GsnCfg) (st : GsnState) :
    ∃ e, (update_layers w b cfg st).chain = st.chain ++ e := by
  unfold update_layers
  obtain ⟨e, he⟩ := foldl_chain_extend w b cfg _ (update_odd_layers w b cfg st)
  exact ⟨e, by rw [update_even_layers, he, update_odd_chain]⟩

theorem iterate_hiddens_length (w : List Mat) (b : List Vec) (cfg : GsnCfg) (K : ℕ)
    (st : GsnState) :
    ((update_layers w b cfg)^[K] st).hiddens.length = st.hiddens.length := by
  induction K generalizing st with
  | zero => rfl
  | succ K ih => rw [Function.iterate_succ_apply, ih, update_layers_hiddens_length]

theorem iterate_reverse_hiddens_length (w : List Mat) (b : List Vec) (cfg : GsnCfg) (K : ℕ)
    (st : GsnState) :
    ((update_layers_reverse w b cfg)^[K] st).hiddens.length = st.hiddens.length := by
  induction K generalizing st with
  | zero => rfl
  | succ K ih => rw [Function.iterate_succ_apply, ih, update_layers_reverse_hiddens_length]

theorem iterate_chain_length (w : List Mat) (b : List Vec) (cfg : GsnCfg) (K : ℕ)
    (st : GsnState) (hne : st.hiddens ≠ []) :
    ((update_layers w b cfg)^[K] st).chain.length = st.chain.length + K := by
  induction K generalizing st with
  | zero => rfl
  | succ K ih =>
    rw [Function.iterate_succ_apply]
    have hne2 : (update_layers w b cfg st).hiddens ≠ [] := by
      have := update_layers_hiddens_length w b cfg st
      intro hcon
      rw [hcon] at this
      exact hne (List.length_eq_zero.mp this.symm)
    rw [ih _ hne2, update_layers_chain _ _ _ _ hne]
    simp
    omega

theorem iterate_reverse_chain_length (w : List Mat) (b : List Vec) (cfg : GsnCfg) (K : ℕ)
    (st : GsnState) (hne : st.hiddens ≠ []) :
    ((update_layers_reverse w b cfg)^[K] st).chain.length = st.chain.length + K := by
  induction K generalizing st with
  | zero => rfl
  | succ K ih =>
    rw [Function.iterate_succ_apply]
    have hne2 : (update_layers_reverse w b cfg st).hiddens ≠ [] := by
      have := update_layers_reverse_hiddens_length w b cfg st
      intro hcon
      rw [hcon] at this
      exact hne (List.length_eq_zero.mp this.symm)
    rw [ih _ hne2, update_layers_reverse_chain _ _ _ _ hne]
    simp
    omega

theorem iterate_chain_extend (w : List Mat) (b : List Vec) (cfg : GsnCfg) (K : ℕ)
    (st : GsnState) :
    ∃ e, ((update_layers w b cfg)^[K] st).chain = st.chain ++ e := by
  induction K generalizing st with
  | zero => exact ⟨[], by simp⟩
  | succ K ih =>
    rw [Function.iterate_succ_apply]
    obtain ⟨e1, he1⟩ := update_layers_chain_extend w b cfg st
    obtain ⟨e2, he2⟩ := ih (update_layers w b cfg st)
    exact ⟨e1 ++ e2, by rw [he2, he1, List.append_assoc]⟩

/-! The zero initialization of build_gsn. -/

theorem foldl_append_zeros (w : List Mat) (acc : List Vec) :
    w.foldl (fun acc wi => acc ++ [zeros_like (matDot (acc.getLastD []) wi)]) acc
      = acc ++ w.map (fun wi => List.replicate (width wi) 0) := by
  induction w generalizing acc with
  | nil => simp
  | cons wi rest ih =>
    simp only [List.foldl_cons, List.map_cons]
    rw [zeros_like_matDot, ih, List.append_assoc]
    rfl

theorem init_hiddens_eq (X : Vec) (w : List Mat) :
    init_hiddens X w = X :: w.map (fun wi => List.replicate (width wi) 0) := by
  rw [init_hiddens, foldl_append_zeros]
  rfl

theorem init_hiddens_ne_nil (X : Vec) (w : List Mat) : init_hiddens X w ≠ [] := by
  rw [init_hiddens_eq]
  simp

theorem init_hiddens_length (X : Vec) (w : List Mat) :
    (init_hiddens X w).length = w.length + 1 := by
  rw [init_hiddens_eq]
  simp

/-! Shape preservation through the update passes. -/

theorem layer_input_length (sizes : List ℕ) (w : List Mat) (b : List Vec) (hs : List Vec)
    (i : ℕ) (hw : WeightsShape w sizes) (hb : BiasShape b sizes) (hsh : ShapeOk sizes hs)
    (h2 : 2 ≤ sizes.length) (hi : i < hs.length) :
    (layer_input w b hs i).length = sizes.getD i 0 := by
  have hlen : hs.length = sizes.length := hsh.1
  have hblen : b.length = sizes.length := hb.1
  have hwlen : w.length + 1 = sizes.length := hw.1
  unfold layer_input
  by_cases h0 : i = 0
  · subst h0
    have hw0 := hw.2 0 (by omega)
    have hb0 := hb.2 0 (by omega)
    rw [if_pos rfl, length_vecAdd, length_matDotT, hw0.1, hb0]
    simp
  · rw [if_neg h0]
    by_cases htop : i = hs.length - 1
    · rw [if_pos htop]
      have hwi := hw.2 (i-1) (by omega)
      have hbi := hb.2 i (by omega)
      rw [length_vecAdd, length_matDot, hwi.2.2, hbi]
      have heq : i - 1 + 1 = i := by omega
      rw [heq]
      simp
    · rw [if_neg htop]
      have hwi := hw.2 i (by omega)
      have hwim := hw.2 (i-1) (by omega)
      have hbi := hb.2 i (by omega)
      rw [length_vecAdd, length_vecAdd, length_matDotT, length_matDot, hwi.1, hwim.2.2, hbi]
      have heq : i - 1 + 1 = i := by omega
      rw [heq]
      simp

theorem sul_shape (sizes : List ℕ) (w : List Mat) (b : List Vec) (cfg : GsnCfg) (i : ℕ)
    (st : GsnState) (hw : WeightsShape w sizes) (hb : BiasShape b sizes)
    (hsh : ShapeOk sizes st.hiddens) (h2 : 2 ≤ sizes.length) (hi : i < st.hiddens.length) :
    ShapeOk sizes (simple_update_layer w b cfg i st).hiddens := by
  obtain ⟨val, hvl, hset⟩ := sul_set_form w b cfg i st
  rw [hset]
  refine ⟨by simp [List.length_set, hsh.1], fun j => ?_⟩
  by_cases hij : i = j
  · subst hij
    rw [getD_set_self _ _ _ _ hi, hvl, layer_input_length sizes w b _ i hw hb hsh h2 hi]
  · rw [getD_set_ne _ _ _ _ _ hij]
    exact hsh.2 j

theorem foldl_shape (sizes : List ℕ) (w : List Mat) (b : List Vec) (cfg : GsnCfg)
    (idxs : List ℕ) (st : GsnState) (hw : WeightsShape w sizes) (hb : BiasShape b sizes)
    (h2 : 2 ≤ sizes.length) (hsh : ShapeOk sizes st.hiddens)
    (hidx : ∀ i ∈ idxs, i < st.hiddens.length) :
    ShapeOk sizes ((idxs.foldl (fun s i => simple_update_layer w b cfg i s) st).hiddens) := by
  induction idxs generalizing st with
  | nil => exact hsh
  | cons i rest ih =>
    simp only [List.foldl_cons]
    apply ih
    · exact sul_shape sizes w b cfg i st hw hb hsh h2 (hidx i (by simp))
    · intro j hj
      rw [sul_hiddens_length]
      exact hidx j (by simp [hj])

theorem update_odd_shape (sizes : List ℕ) (w : List Mat) (b : List Vec) (cfg : GsnCfg)
    (st : GsnState) (hw : WeightsShape w sizes) (hb : BiasShape b sizes)
    (h2 : 2 ≤ sizes.length) (hsh : ShapeOk sizes st.hiddens) :
    ShapeOk sizes (update_odd_layers w b cfg st).hiddens :=
  foldl_shape sizes w b cfg _ st hw hb h2 hsh (fun _ hi => stepRange_odd_lt hi)

theorem update_even_shape (sizes : List ℕ) (w : List Mat) (b : List Vec) (cfg : GsnCfg)
    (st : GsnState) (hw : WeightsShape w sizes) (hb : BiasShape b sizes)
    (h2 : 2 ≤ sizes.length) (hsh : ShapeOk sizes st.hiddens) :
    ShapeOk sizes (update_even_layers w b cfg st).hiddens :=
  foldl_shape sizes w b cfg _ st hw hb h2 hsh (fun _ hi => stepRange_even_lt hi)

theorem update_layers_shape (sizes : List ℕ) (w : List Mat) (b : List Vec) (cfg : GsnCfg)
    (st : GsnState) (hw : WeightsShape w sizes) (hb : BiasShape b sizes)
    (h2 : 2 ≤ sizes.length) (hsh : ShapeOk sizes st.hiddens) :
    ShapeOk sizes (update_layers w b cfg st).hiddens :=
  update_even_shape sizes w b cfg _ hw hb h2 (update_odd_shape sizes w b cfg st hw hb h2 hsh)

theorem update_layers_reverse_shape (sizes : List ℕ) (w : List Mat) (b : List Vec)
    (cfg : GsnCfg) (st : GsnState) (hw : WeightsShape w sizes) (hb : BiasShape b sizes)
    (h2 : 2 ≤ sizes.length) (hsh : ShapeOk sizes st.hiddens) :
    ShapeOk sizes (update_layers_reverse w b cfg st).hiddens :=
  update_odd_shape sizes w b cfg _ hw hb h2 (update_even_shape sizes w b cfg st hw hb h2 hsh)

theorem iterate_shape (sizes : List ℕ) (w : List Mat) (b : List Vec) (cfg : GsnCfg) (K : ℕ)
    (st : GsnState) (hw : WeightsShape w sizes) (hb : BiasShape b sizes)
    (h2 : 2 ≤ sizes.length) (hsh : ShapeOk sizes st.hiddens) :
    ShapeOk sizes ((update_layers w b cfg)^[K] st).hiddens := by
  induction K generalizing st with
  | zero => exact hsh
  | succ K ih =>
    rw [Function.iterate_succ_apply]
    exact ih _ (update_layers_shape sizes w b cfg st hw hb h2 hsh)

theorem init_hiddens_shape (sizes : List ℕ) (X0 : Vec) (w : List Mat)
    (hw : WeightsShape w sizes) (hX : X0.length = sizes.getD 0 0) :
    ShapeOk sizes (init_hiddens X0 w) := by
  have hwl : w.length + 1 = sizes.length := hw.1
  rw [init_hiddens_eq]
  constructor
  · simp
    omega
  · intro i
    cases i with
    | zero => simpa using hX
    | succ j =>
      simp only [List.getD_cons_succ]
      by_cases hj : j < w.length
      · rw [getD_map_replicate w j hj, List.length_replicate, (hw.2 j hj).2.2]
      · rw [getD_of_le_length _ _ _ (by simp; omega), getD_of_le_length sizes _ _ (by omega)]
        simp

/-- C1: for every layer count L ≥ 1 and walkback count K ≥ 1, build_gsn
called with a weights list of length L and a bias list of length L+1
(matching the layer-size schedule) returns a reconstruction chain of
exactly K tensors (one appended per full odd+even update pass) and a final
hidden-state list of exactly L+1 tensors whose shapes match the schedule
[input_size, hidden_size, ..., hidden_size]. -/
theorem build_gsn_spec (N H L K : ℕ) (X : Vec) (w : List Mat) (b : List Vec) (cfg : GsnCfg)
    (rng : Rng) (hL : 1 ≤ L) (hK : 1 ≤ K)
    (hw : WeightsShape w (layerSizes N H L)) (hb : BiasShape b (layerSizes N H L))
    (hX : X.length = N) :
    (build_gsn X w b cfg K rng).1.length = K ∧
    (build_gsn X w b cfg K rng).2.1.length = L + 1 ∧
    ∀ i, ((build_gsn X w b cfg K rng).2.1.getD i []).length = (layerSizes N H L).getD i 0 := by
  have hsl : (layerSizes N H L).length = L + 1 := by simp [layerSizes]
  have h2 : 2 ≤ (layerSizes N H L).length := by omega
  have hwlen : w.length = L := by have := hw.1; omega
  simp only [build_gsn]
  generalize hx0g : (if cfg.add_noise then salt_and_pepper X cfg.input_salt_and_pepper rng
    else (X, rng)) = x0
  have hx0 : x0.1.length = N := by
    rw [← hx0g]
    by_cases h : cfg.add_noise <;> simp [h, length_salt_and_pepper, hX]
  have hne : init_hiddens x0.1 w ≠ [] := init_hiddens_ne_nil _ _
  have hsh0 : ShapeOk (layerSizes N H L) (init_hiddens x0.1 w) :=
    init_hiddens_shape _ _ _ hw (by simpa [layerSizes] using hx0)
  refine ⟨?_, ?_, ?_⟩
  · have h := iterate_chain_length w b cfg K ⟨init_hiddens x0.1 w, [], x0.2⟩ hne
    simpa using h
  · rw [iterate_hiddens_length]
    simp [init_hiddens_length, hwlen]
  · intro i
    exact (iterate_shape _ w b cfg K ⟨init_hiddens x0.1 w, [], x0.2⟩ hw hb h2 hsh0).2 i

/-- Witness for build_gsn_spec at a concrete one-layer, one-walkback
instance. -/
theorem build_gsn_spec_witness :
    (1 ≤ 1 ∧ WeightsShape [[[(0:ℚ)]]] (layerSizes 1 1 1) ∧
      BiasShape [[(0:ℚ)], [0]] (layerSizes 1 1 1) ∧ ([(0:ℚ)] : Vec).length = 1) ∧
    ((build_gsn [0] [[[0]]] [[0], [0]]
        ⟨false, false, 0, 0, false, fun x => x, fun x => x⟩ 1 ⟨fun _ => 0, 0⟩).1.length = 1 ∧
      (build_gsn [0] [[[0]]] [[0], [0]]
        ⟨false, false, 0, 0, false, fun x => x, fun x => x⟩ 1 ⟨fun _ => 0, 0⟩).2.1.length = 1 + 1 ∧
      ∀ i, ((build_gsn [0] [[[0]]] [[0], [0]]
        ⟨false, false, 0, 0, false, fun x => x, fun x => x⟩ 1 ⟨fun _ => 0, 0⟩).2.1.getD i
          []).length = (layerSizes 1 1 1).getD i 0) := by
  have hw : WeightsShape [[[(0:ℚ)]]] (layerSizes 1 1 1) := by
    unfold WeightsShape MatShape width layerSizes
    decide
  have hb : BiasShape [[(0:ℚ)], [0]] (layerSizes 1 1 1) := by
    unfold BiasShape layerSizes
    decide
  exact ⟨⟨le_refl 1, hw, hb, rfl⟩,
    build_gsn_spec 1 1 1 1 [0] [[[0]]] [[0], [0]]
      ⟨false, false, 0, 0, false, fun x => x, fun x => x⟩ ⟨fun _ => 0, 0⟩
      (le_refl 1) (le_refl 1) hw hb rfl⟩

theorem getLastD_map (l : List Vec) (f : Vec → ℚ) (hl : l ≠ []) :
    (l.map f).getLastD 0 = f (l.getLastD []) := by
  obtain ⟨x, hx⟩ : ∃ x, l.getLast? = some x :=
    Option.isSome_iff_exists.mp (List.getLast?_isSome.mpr hl)
  rw [List.getLastD_eq_getLast?, List.getLastD_eq_getLast?, List.getLast?_map, hx]
  rfl

/-- C10: update_odd_layers modifies only odd-indexed entries (every
even-indexed entry, including the visible layer, unchanged) and appends
nothing to the chain; update_even_layers modifies only even-indexed
entries (every odd-indexed entry unchanged) and appends exactly one tensor
(the visible reconstruction) to the chain per call. -/
theorem update_passes_frame (w : List Mat) (b : List Vec) (cfg : GsnCfg) (st : GsnState)
    (hne : st.hiddens ≠ []) :
    ((update_odd_layers w b cfg st).chain = st.chain ∧
      (update_odd_layers w b cfg st).hiddens.length = st.hiddens.length ∧
      ∀ j, j % 2 = 0 →
        (update_odd_layers w b cfg st).hiddens.getD j [] = st.hiddens.getD j []) ∧
    ((update_even_layers w b cfg st).hiddens.length = st.hiddens.length ∧
      (∀ j, j % 2 = 1 →
        (update_even_layers w b cfg st).hiddens.getD j [] = st.hiddens.getD j []) ∧
      (update_even_layers w b cfg st).chain =
        st.chain ++ [visible_reconstruction w b cfg st]) := by
  refine ⟨⟨update_odd_chain w b cfg st, update_odd_hiddens_length w b cfg st, ?_⟩,
    update_even_hiddens_length w b cfg st, ?_, update_even_chain w b cfg st hne⟩
  · intro j hj
    exact foldl_hiddens_frame w b cfg _ st j
      (fun i hi => by have := stepRange_odd hi; omega)
  · intro j hj
    exact foldl_hiddens_frame w b cfg _ st j
      (fun i hi => by have := stepRange_even hi; omega)

/-- Witness for update_passes_frame at a concrete two-layer state. -/
theorem update_passes_frame_witness :
    (([[(0:ℚ)], [0], [0]] : List Vec) ≠ []) ∧
    ((update_odd_layers [[[1]], [[1]]] [[0], [0], [0]]
        ⟨true, true, 1, 1, true, fun x => x, fun x => x⟩
        ⟨[[0], [0], [0]], [], ⟨fun _ => 0, 0⟩⟩).chain = [] ∧
      (update_odd_layers [[[1]], [[1]]] [[0], [0], [0]]
        ⟨true, true, 1, 1, true, fun x => x, fun x => x⟩
        ⟨[[0], [0], [0]], [], ⟨fun _ => 0, 0⟩⟩).hiddens.length =
          ([[(0:ℚ)], [0], [0]] : List Vec).length ∧
      ∀ j, j % 2 = 0 →
        (update_odd_layers [[[1]], [[1]]] [[0], [0], [0]]
          ⟨true, true, 1, 1, true, fun x => x, fun x => x⟩
          ⟨[[0], [0], [0]], [], ⟨fun _ => 0, 0⟩⟩).hiddens.getD j [] =
            ([[(0:ℚ)], [0], [0]] : List Vec).getD j []) ∧
    ((update_even_layers [[[1]], [[1]]] [[0], [0], [0]]
        ⟨true, true, 1, 1, true, fun x => x, fun x => x⟩
        ⟨[[0], [0], [0]], [], ⟨fun _ => 0, 0⟩⟩).hiddens.length =
          ([[(0:ℚ)], [0], [0]] : List Vec).length ∧
      (∀ j, j % 2 = 1 →
        (update_even_layers [[[1]], [[1]]] [[0], [0], [0]]
          ⟨true, true, 1, 1, true, fun x => x, fun x => x⟩
          ⟨[[0], [0], [0]], [], ⟨fun _ => 0, 0⟩⟩).hiddens.getD j [] =
            ([[(0:ℚ)], [0], [0]] : List Vec).getD j []) ∧
      (update_even_layers [[[1]], [[1]]] [[0], [0], [0]]
        ⟨true, true, 1, 1, true, fun x => x, fun x => x⟩
        ⟨[[0], [0], [0]], [], ⟨fun _ => 0, 0⟩⟩).chain =
        [] ++ [visible_reconstruction [[[1]], [[1]]] [[0], [0], [0]]
          ⟨true, true, 1, 1, true, fun x => x, fun x => x⟩
          ⟨[[0], [0], [0]], [], ⟨fun _ => 0, 0⟩⟩]) :=
  ⟨by simp, update_passes_frame [[[1]], [[1]]] [[0], [0], [0]]
    ⟨true, true, 1, 1, true, fun x => x, fun x => x⟩
    ⟨[[0], [0], [0]], [], ⟨fun _ => 0, 0⟩⟩ (by simp)⟩

/-- C9: at the visible layer (i = 0), the tensor appended to the chain is
the visible activation before sampling and before corruption, and h0 is
afterwards replaced by its salt-and-pepper corruption unconditionally:
this happens for every cfg, in particular with add_noise = False. -/
theorem sul_visible_corruption (w : List Mat) (b : List Vec) (cfg : GsnCfg) (st : GsnState)
    (hns : cfg.input_sampling = false) (hne : st.hiddens ≠ []) :
    (simple_update_layer w b cfg 0 st).chain =
      st.chain ++ [visible_reconstruction w b cfg st] ∧
    (simple_update_layer w b cfg 0 st).hiddens.getD 0 [] =
      (salt_and_pepper (visible_reconstruction w b cfg st)
        cfg.input_salt_and_pepper st.rng).1 := by
  refine ⟨sul_chain_zero w b cfg st, ?_⟩
  have h0 : 0 < st.hiddens.length := by
    cases h : st.hiddens with
    | nil => exact absurd h hne
    | cons a t => simp [h]
  have hset := getD_set_self st.hiddens 0
    ((salt_and_pepper (List.map cfg.visible_activation (layer_input w b st.hiddens 0))
      cfg.input_salt_and_pepper st.rng).1) [] h0
  simp only [simple_update_layer, visible_reconstruction, hns]
  simpa using hset

/-- Witness for sul_visible_corruption: the corruption is applied with
add_noise = False and input_sampling = False. -/
theorem sul_visible_corruption_witness :
    ((⟨false, false, 0, 1/2, false, fun x => x, fun x => x⟩ : GsnCfg).input_sampling = false) ∧
    (([[(1:ℚ)], [1]] : List Vec) ≠ []) ∧
    ((simple_update_layer [[[1]]] [[0], [0]]
        ⟨false, false, 0, 1/2, false, fun x => x, fun x => x⟩ 0
        ⟨[[1], [1]], [], ⟨fun _ => 0, 0⟩⟩).chain =
      [] ++ [visible_reconstruction [[[1]]] [[0], [0]]
        ⟨false, false, 0, 1/2, false, fun x => x, fun x => x⟩
        ⟨[[1], [1]], [], ⟨fun _ => 0, 0⟩⟩] ∧
    (simple_update_layer [[[1]]] [[0], [0]]
        ⟨false, false, 0, 1/2, false, fun x => x, fun x => x⟩ 0
        ⟨[[1], [1]], [], ⟨fun _ => 0, 0⟩⟩).hiddens.getD 0 [] =
      (salt_and_pepper (visible_reconstruction [[[1]]] [[0], [0]]
          ⟨false, false, 0, 1/2, false, fun x => x, fun x => x⟩
          ⟨[[1], [1]], [], ⟨fun _ => 0, 0⟩⟩) (1/2) ⟨fun _ => 0, 0⟩).1) :=
  ⟨rfl, by simp, sul_visible_corruption [[[1]]] [[0], [0]]
    ⟨false, false, 0, 1/2, false, fun x => x, fun x => x⟩
    ⟨[[1], [1]], [], ⟨fun _ => 0, 0⟩⟩ rfl (by simp)⟩

/-- C4: build_gsn_given_hiddens performs exactly `walkbacks` passes in
reversed order (even layers before odd layers in each pass), appends one
visible reconstruction per pass (so the chain has exactly `walkbacks`
entries), and returns the chain, the final hidden-state list, a total cost
equal to the sum of cost_function(rX, X) over the chain entries and a last
cost equal to cost_function applied to the final chain entry. -/
theorem build_gsn_given_hiddens_spec (X : Vec) (hs : List Vec) (w : List Mat) (b : List Vec)
    (cfg : GsnCfg) (K : ℕ) (cf : Vec → Vec → ℚ) (rng : Rng)
    (hne : hs ≠ []) (hK : 1 ≤ K) :
    (build_gsn_given_hiddens X hs w b cfg K cf rng).1.length = K ∧
    (build_gsn_given_hiddens X hs w b cfg K cf rng).1 =
      ((update_layers_reverse w b cfg)^[K] ⟨hs, [], rng⟩).chain ∧
    (build_gsn_given_hiddens X hs w b cfg K cf rng).2.1 =
      ((update_layers_reverse w b cfg)^[K] ⟨hs, [], rng⟩).hiddens ∧
    (∀ st : GsnState, update_layers_reverse w b cfg st =
      update_odd_layers w b cfg (update_even_layers w b cfg st)) ∧
    (build_gsn_given_hiddens X hs w b cfg K cf rng).2.2.1 =
      ((build_gsn_given_hiddens X hs w b cfg K cf rng).1.map (fun rX => cf rX X)).sum ∧
    (build_gsn_given_hiddens X hs w b cfg K cf rng).2.2.2 =
      cf ((build_gsn_given_hiddens X hs w b cfg K cf rng).1.getLastD []) X := by
  have hlen : (build_gsn_given_hiddens X hs w b cfg K cf rng).1.length = K := by
    simp only [build_gsn_given_hiddens]
    have h := iterate_reverse_chain_length w b cfg K ⟨hs, [], rng⟩ hne
    simpa using h
  refine ⟨hlen, rfl, rfl, fun st => rfl, rfl, ?_⟩
  have hch : ((update_layers_reverse w b cfg)^[K] ⟨hs, [], rng⟩).chain ≠ [] := by
    have hl := iterate_reverse_chain_length w b cfg K ⟨hs, [], rng⟩ hne
    intro hcon
    rw [hcon] at hl
    simp at hl
    omega
  simp only [build_gsn_given_hiddens]
  exact getLastD_map _ _ hch

/-- Witness for build_gsn_given_hiddens_spec at a concrete instance. -/
theorem build_gsn_given_hiddens_spec_witness :
    (([[(1:ℚ)], [0]] : List Vec) ≠ [] ∧ 1 ≤ 1) ∧
    ((build_gsn_given_hiddens [1] [[1], [0]] [[[1]]] [[0], [0]]
        ⟨false, false, 0, 0, false, fun x => x, fun x => x⟩ 1
        (fun a x => (vecAdd a x).sum) ⟨fun _ => 1, 0⟩).1.length = 1 ∧
      (build_gsn_given_hiddens [1] [[1], [0]] [[[1]]] [[0], [0]]
        ⟨false, false, 0, 0, false, fun x => x, fun x => x⟩ 1
        (fun a x => (vecAdd a x).sum) ⟨fun _ => 1, 0⟩).1 =
        ((update_layers_reverse [[[1]]] [[0], [0]]
          ⟨false, false, 0, 0, false, fun x => x, fun x => x⟩)^[1]
            ⟨[[1], [0]], [], ⟨fun _ => 1, 0⟩⟩).chain ∧
      (build_gsn_given_hiddens [1] [[1], [0]] [[[1]]] [[0], [0]]
        ⟨false, false, 0, 0, false, fun x => x, fun x => x⟩ 1
        (fun a x => (vecAdd a x).sum) ⟨fun _ => 1, 0⟩).2.1 =
        ((update_layers_reverse [[[1]]] [[0], [0]]
          ⟨false, false, 0, 0, false, fun x => x, fun x => x⟩)^[1]
            ⟨[[1], [0]], [], ⟨fun _ => 1, 0⟩⟩).hiddens ∧
      (∀ st : GsnState, update_layers_reverse [[[1]]] [[0], [0]]
          ⟨false, false, 0, 0, false, fun x => x, fun x => x⟩ st =
        update_odd_layers [[[1]]] [[0], [0]]
          ⟨false, false, 0, 0, false, fun x => x, fun x => x⟩
          (update_even_layers [[[1]]] [[0], [0]]
            ⟨false, false, 0, 0, false, fun x => x, fun x => x⟩ st)) ∧
      (build_gsn_given_hiddens [1] [[1], [0]] [[[1]]] [[0], [0]]
        ⟨false, false, 0, 0, false, fun x => x, fun x => x⟩ 1
        (fun a x => (vecAdd a x).sum) ⟨fun _ => 1, 0⟩).2.2.1 =
        ((build_gsn_given_hiddens [1] [[1], [0]] [[[1]]] [[0], [0]]
          ⟨false, false, 0, 0, false, fun x => x, fun x => x⟩ 1
          (fun a x => (vecAdd a x).sum) ⟨fun _ => 1, 0⟩).1.map
            (fun rX => (vecAdd rX [1]).sum)).sum ∧
      (build_gsn_given_hiddens [1] [[1], [0]] [[[1]]] [[0], [0]]
        ⟨false, false, 0, 0, false, fun x => x, fun x => x⟩ 1
        (fun a x => (vecAdd a x).sum) ⟨fun _ => 1, 0⟩).2.2.2 =
        (vecAdd ((build_gsn_given_hiddens [1] [[1], [0]] [[[1]]] [[0], [0]]
          ⟨false, false, 0, 0, false, fun x => x, fun x => x⟩ 1
          (fun a x => (vecAdd a x).sum) ⟨fun _ => 1, 0⟩).1.getLastD []) [1]).sum) :=
  ⟨⟨by simp, le_refl 1⟩,
    build_gsn_given_hiddens_spec [1] [[1], [0]] [[[1]]] [[0], [0]]
      ⟨false, false, 0, 0, false, fun x => x, fun x => x⟩ 1
      (fun a x => (vecAdd a x).sum) ⟨fun _ => 1, 0⟩ (by simp) (le_refl 1)⟩

/-- Pure form of the odd pass when noise is disabled: no random draw is
consumed and the chain is untouched. -/
theorem update_odd_noise_free (w : List Mat) (b : List Vec) (cfg : GsnCfg)
    (hs c : List Vec) (r : Rng) (hn : cfg.add_noise = false) :
    update_odd_layers w b cfg ⟨hs, c, r⟩ =
      ⟨(stepRange 1 (hs.length / 2) 2).foldl
        (fun h i => h.set i ((layer_input w b h i).map cfg.hidden_activation)) hs, c, r⟩ := by
  unfold update_odd_layers
  exact foldl_noise_free w b cfg _ hs c r hn (fun i hi => by have := stepRange_odd hi; omega)

/-- C2 counterexample: with add_noise = False and input_sampling = False and
two walkbacks, build_gsn applied to the same input, weights and biases but
two different random-stream states produces two different reconstruction
chains: the salt-and-pepper corruption of the visible layer, applied
unconditionally at every even pass, feeds random draws into every chain
entry after the first. -/
theorem build_gsn_random_dependence :
    (build_gsn [1] [[[1]]] [[0], [0]]
        ⟨false, false, 0, 1/2, false, fun x => x, fun x => x⟩ 2 ⟨fun _ => 1, 0⟩).1 ≠
    (build_gsn [1] [[[1]]] [[0], [0]]
        ⟨false, false, 0, 1/2, false, fun x => x, fun x => x⟩ 2 ⟨fun _ => 0, 0⟩).1 := by
  have h1 : (build_gsn [1] [[[1]]] [[0], [0]]
      ⟨false, false, 0, 1/2, false, fun x => x, fun x => x⟩ 2 ⟨fun _ => 1, 0⟩).1 = [[1], [1]] := by
    simp only [show (2:ℕ) = 0 + 1 + 1 from rfl]
    norm_num [build_gsn, update_layers, update_even_layers, update_odd_layers, stepRange,
      simple_update_layer, layer_input, matDot, matDotT, dotProd, vecAdd, col, width,
      salt_and_pepper, add_gaussian, binomial_sample, Rng.draw, init_hiddens, zeros_like,
      Function.iterate_succ_apply, Function.iterate_zero_apply, List.range_succ]
  have h2 : (build_gsn [1] [[[1]]] [[0], [0]]
      ⟨false, false, 0, 1/2, false, fun x => x, fun x => x⟩ 2 ⟨fun _ => 0, 0⟩).1 = [[1], [0]] := by
    simp only [show (2:ℕ) = 0 + 1 + 1 from rfl]
    norm_num [build_gsn, update_layers, update_even_layers, update_odd_layers, stepRange,
      simple_update_layer, layer_input, matDot, matDotT, dotProd, vecAdd, col, width,
      salt_and_pepper, add_gaussian, binomial_sample, Rng.draw, init_hiddens, zeros_like,
      Function.iterate_succ_apply, Function.iterate_zero_apply, List.range_succ]
  rw [h1, h2]
  simp

/-- C2 amended: with add_noise = False and input_sampling = False, build_gsn
is deterministic given the random-stream state (it is a pure function of
its arguments, the stream included), and its first chain entry does not
depend on the random stream at all; entries after the first can depend on
the stream, because the visible layer is salt-and-pepper corrupted
unconditionally after each reconstruction. -/
theorem build_gsn_first_entry_deterministic (X : Vec) (w : List Mat) (b : List Vec)
    (cfg : GsnCfg) (K : ℕ) (r1 r2 : Rng) (hn : cfg.add_noise = false)
    (hsmp : cfg.input_sampling = false) (hK : 1 ≤ K) :
    (build_gsn X w b cfg K r1).1.getD 0 [] = (build_gsn X w b cfg K r2).1.getD 0 [] := by
  obtain ⟨K', rfl⟩ : ∃ K', K = K' + 1 := ⟨K - 1, by omega⟩
  simp only [build_gsn, hn, Bool.false_eq_true, if_false]
  rw [Function.iterate_succ_apply, Function.iterate_succ_apply]
  have key : ∀ r : Rng, ((update_layers w b cfg)^[K']
      (update_layers w b cfg ⟨init_hiddens X w, [], r⟩)).chain.getD 0 [] =
      visible_reconstruction w b cfg
        ⟨(stepRange 1 ((init_hiddens X w).length / 2) 2).foldl
          (fun h i => h.set i ((layer_input w b h i).map cfg.hidden_activation))
          (init_hiddens X w), [], r⟩ := by
    intro r
    obtain ⟨e, he⟩ := iterate_chain_extend w b cfg K'
      (update_layers w b cfg ⟨init_hiddens X w, [], r⟩)
    rw [he, update_layers_chain w b cfg _ (init_hiddens_ne_nil X w),
      update_odd_noise_free w b cfg (init_hiddens X w) [] r hn]
    simp
  rw [key r1, key r2]
  rfl

/-- Witness for build_gsn_first_entry_deterministic at a concrete instance
with two different streams. -/
theorem build_gsn_first_entry_deterministic_witness :
    ((⟨false, false, 0, 1/2, false, fun x => x, fun x => x⟩ : GsnCfg).add_noise = false ∧
      (⟨false, false, 0, 1/2, false, fun x => x, fun x => x⟩ : GsnCfg).input_sampling = false ∧
      1 ≤ 2) ∧
    (build_gsn [1] [[[1]]] [[0], [0]]
        ⟨false, false, 0, 1/2, false, fun x => x, fun x => x⟩ 2 ⟨fun _ => 1, 0⟩).1.getD 0 [] =
      (build_gsn [1] [[[1]]] [[0], [0]]
        ⟨false, false, 0, 1/2, false, fun x => x, fun x => x⟩ 2 ⟨fun _ => 0, 0⟩).1.getD 0 [] :=
  ⟨⟨rfl, rfl, by omega⟩,
    build_gsn_first_entry_deterministic [1] [[[1]]] [[0], [0]]
      ⟨false, false, 0, 1/2, false, fun x => x, fun x => x⟩ 2
      ⟨fun _ => 1, 0⟩ ⟨fun _ => 0, 0⟩ rfl rfl (by omega)⟩

set_option maxRecDepth 8000 in
/-- C6 counterexample: with noiseless_h1 = True, the first hidden layer
produced by the graph build is NOT identical across add_noise = True and
add_noise = False, all other inputs and configuration equal: when
add_noise = True, build_gsn corrupts the visible input X before the first
update, and the corrupted input feeds into h1. -/
theorem noiseless_h1_not_invariant :
    (build_gsn [1] [[[1]]] [[0], [0]]
        ⟨true, true, 0, 1/2, false, fun x => x, fun x => x⟩ 1 ⟨fun _ => 0, 0⟩).2.1.getD 1 [] ≠
    (build_gsn [1] [[[1]]] [[0], [0]]
        ⟨false, true, 0, 1/2, false, fun x => x, fun x => x⟩ 1 ⟨fun _ => 0, 0⟩).2.1.getD 1 [] := by
  have h1 : (build_gsn [1] [[[1]]] [[0], [0]]
      ⟨true, true, 0, 1/2, false, fun x => x, fun x => x⟩ 1
      ⟨fun _ => 0, 0⟩).2.1.getD 1 [] = [0] := by
    norm_num [build_gsn, update_layers, update_even_layers, update_odd_layers, stepRange,
      simple_update_layer, layer_input, matDot, matDotT, dotProd, vecAdd, col, width,
      salt_and_pepper, add_gaussian, binomial_sample, Rng.draw, init_hiddens, zeros_like,
      Function.iterate_one, List.range_succ]
  have h2 : (build_gsn [1] [[[1]]] [[0], [0]]
      ⟨false, true, 0, 1/2, false, fun x => x, fun x => x⟩ 1
      ⟨fun _ => 0, 0⟩).2.1.getD 1 [] = [1] := by
    norm_num [build_gsn, update_layers, update_even_layers, update_odd_layers, stepRange,
      simple_update_layer, layer_input, matDot, matDotT, dotProd, vecAdd, col, width,
      salt_and_pepper, add_gaussian, binomial_sample, Rng.draw, init_hiddens, zeros_like,
      Function.iterate_one, List.range_succ]
  rw [h1, h2]
  simp

/-- C6 amended: with noiseless_h1 = True the update of the first hidden
layer itself injects no noise: simple_update_layer at i = 1 produces the
same state (and consumes no random draw) whether add_noise is True or
False, given the same input state; the end-to-end value of h1 in the graph
can still differ across add_noise because the visible-input corruption
upstream of h1 differs. -/
theorem noiseless_h1_update_invariant (w : List Mat) (b : List Vec) (cfg : GsnCfg)
    (st : GsnState) (h : cfg.noiseless_h1 = true) :
    simple_update_layer w b { cfg with add_noise := true } 1 st =
      simple_update_layer w b { cfg with add_noise := false } 1 st := by
  simp [simple_update_layer, h]

/-- Witness for noiseless_h1_update_invariant at a concrete state. -/
theorem noiseless_h1_update_invariant_witness :
    ((⟨false, true, 3, 1/2, false, fun x => x, fun x => x⟩ : GsnCfg).noiseless_h1 = true) ∧
    simple_update_layer [[[1]]] [[0], [0]]
        { (⟨false, true, 3, 1/2, false, fun x => x, fun x => x⟩ : GsnCfg) with add_noise := true }
        1 ⟨[[1], [1]], [], ⟨fun _ => 5, 0⟩⟩ =
      simple_update_layer [[[1]]] [[0], [0]]
        { (⟨false, true, 3, 1/2, false, fun x => x, fun x => x⟩ : GsnCfg) with add_noise := false }
        1 ⟨[[1], [1]], [], ⟨fun _ => 5, 0⟩⟩ :=
  ⟨rfl, noiseless_h1_update_invariant [[[1]]] [[0], [0]]
    ⟨false, true, 3, 1/2, false, fun x => x, fun x => x⟩
    ⟨[[1], [1]], [], ⟨fun _ => 5, 0⟩⟩ rfl⟩

/-- C7 counterexample: calling predict before the graph has been built
raises NotImplementedError, and so does construction with a missing hidden
activation (and a missing visible activation or cost function): the
usage-order error is NOT a different error kind from those configuration
errors.  (Only the missing-input-size error is an AssertionError.) -/
theorem predict_error_kind_not_distinct :
    predict ⟨none, none, none⟩ [] = Except.error PyError.notImplementedError ∧
    (gsn_init ⟨some 1, 3, 5, none, some (fun x => x), some (fun _ _ => 0)⟩).2 =
      Except.error PyError.notImplementedError := ⟨rfl, rfl⟩

/-- C7 amended: calling predict, get_hiddens or get_outputs before the
graph has been built raises NotImplementedError — an error kind distinct
from the AssertionError raised at construction for a missing input
dimensionality, but the same kind as the NotImplementedError raised at
construction for a missing/invalid activation or cost function. -/
theorem usage_order_error_kinds (a a2 : GsnArgs) (m : GsnRuntime) (input : Vec) (n : ℕ)
    (h1 : a.input_size = none) (h2 : m.f_predict = none) (h3 : m.hiddens = none)
    (h4 : m.output = none) (h5 : a2.input_size = some n) (h6 : a2.hidden_activation = none) :
    (gsn_init a).2 = Except.error PyError.assertionError ∧
    predict m input = Except.error PyError.notImplementedError ∧
    get_hiddens m = Except.error PyError.notImplementedError ∧
    get_outputs m = Except.error PyError.notImplementedError ∧
    (gsn_init a2).2 = Except.error PyError.notImplementedError ∧
    PyError.assertionError ≠ PyError.notImplementedError := by
  refine ⟨?_, ?_, ?_, ?_, ?_, by simp⟩
  · simp [gsn_init, h1]
  · simp [predict, h2]
  · simp [get_hiddens, h3]
  · simp [get_outputs, h4]
  · simp [gsn_init, h5, h6]

/-- Witness for usage_order_error_kinds at concrete arguments. -/
theorem usage_order_error_kinds_witness :
    ((⟨none, 3, 5, some (fun x => x), some (fun x => x),
        some (fun _ _ => 0)⟩ : GsnArgs).input_size = none ∧
      (⟨none, none, none⟩ : GsnRuntime).f_predict = none ∧
      (⟨none, none, none⟩ : GsnRuntime).hiddens = none ∧
      (⟨none, none, none⟩ : GsnRuntime).output = none ∧
      (⟨some 7, 3, 5, none, some (fun x => x),
        some (fun _ _ => 0)⟩ : GsnArgs).input_size = some 7 ∧
      (⟨some 7, 3, 5, none, some (fun x => x),
        some (fun _ _ => 0)⟩ : GsnArgs).hidden_activation = none) ∧
    ((gsn_init ⟨none, 3, 5, some (fun x => x), some (fun x => x), some (fun _ _ => 0)⟩).2 =
        Except.error PyError.assertionError ∧
      predict ⟨none, none, none⟩ [] = Except.error PyError.notImplementedError ∧
      get_hiddens ⟨none, none, none⟩ = Except.error PyError.notImplementedError ∧
      get_outputs ⟨none, none, none⟩ = Except.error PyError.notImplementedError ∧
      (gsn_init ⟨some 7, 3, 5, none, some (fun x => x), some (fun _ _ => 0)⟩).2 =
        Except.error PyError.notImplementedError ∧
      PyError.assertionError ≠ PyError.notImplementedError) :=
  ⟨⟨rfl, rfl, rfl, rfl, rfl, rfl⟩,
    usage_order_error_kinds
      ⟨none, 3, 5, some (fun x => x), some (fun x => x), some (fun _ _ => 0)⟩
      ⟨some 7, 3, 5, none, some (fun x => x), some (fun _ _ => 0)⟩
      ⟨none, none, none⟩ [] 7 rfl rfl rfl rfl rfl rfl⟩

/-- The walkback count below which GSN.__init__ logs its warning:
2*layers when layers is even, 2*layers - 1 when layers is odd
(lines 131-138). -/
def walkback_threshold (L : ℕ) : ℕ := if L % 2 = 0 then 2 * L else 2 * L - 1

theorem walkback_warning_iff (L K : ℕ) :
    walkback_warning L K = true ↔ K < walkback_threshold L := by
  unfold walkback_warning walkback_threshold
  by_cases h : L % 2 = 0 <;> simp [h]

/-- C8: for every layer count and every walkback count K ≥ 1 below the
recommended threshold (2L for even L, 2L-1 for odd L), construction logs a
warning but does not raise, and the constructed model is exactly the model
built with any sufficient walkback count, apart from the stored walkback
number itself. -/
theorem insufficient_walkbacks_warn_only (a : GsnArgs) (n : ℕ) (hact vact : ℚ → ℚ)
    (cf : Vec → Vec → ℚ) (hin : a.input_size = some n) (hha : a.hidden_activation = some hact)
    (hva : a.visible_activation = some vact) (hcf : a.cost_function = some cf)
    (hK1 : 1 ≤ a.walkbacks) (hK : a.walkbacks < walkback_threshold a.layers) :
    (gsn_init a).1 = ["Not enough walkbacks for the layers!"] ∧
    (gsn_init a).2 = Except.ok ⟨n, a.layers, a.walkbacks, hact, vact, cf⟩ ∧
    ∀ K2, ¬ K2 < walkback_threshold a.layers →
      (gsn_init { a with walkbacks := K2 }).1 = [] ∧
      (gsn_init { a with walkbacks := K2 }).2 =
        Except.ok ⟨n, a.layers, K2, hact, vact, cf⟩ := by
  have hw : walkback_warning a.layers a.walkbacks = true := (walkback_warning_iff _ _).mpr hK
  refine ⟨?_, ?_, ?_⟩
  · simp [gsn_init, hin, hha, hva, hcf, hw]
  · simp [gsn_init, hin, hha, hva, hcf, hw]
  · intro K2 hK2
    have hw2 : walkback_warning a.layers K2 = false := by
      cases hwt : walkback_warning a.layers K2
      · rfl
      · exact absurd ((walkback_warning_iff _ _).mp hwt) hK2
    constructor <;> simp [gsn_init, hin, hha, hva, hcf, hw2]

/-- Witness for insufficient_walkbacks_warn_only: layers = 3 with a single
walkback (threshold 5) warns but constructs the model. -/
theorem insufficient_walkbacks_warn_only_witness :
    ((⟨some 2, 3, 1, some (fun x => x), some (fun x => x),
        some (fun _ _ => 0)⟩ : GsnArgs).input_size = some 2 ∧
      (⟨some 2, 3, 1, some (fun x => x), some (fun x => x),
        some (fun _ _ => 0)⟩ : GsnArgs).hidden_activation = some (fun x => x) ∧
      (⟨some 2, 3, 1, some (fun x => x), some (fun x => x),
        some (fun _ _ => 0)⟩ : GsnArgs).visible_activation = some (fun x => x) ∧
      (⟨some 2, 3, 1, some (fun x => x), some (fun x => x),
        some (fun _ _ => 0)⟩ : GsnArgs).cost_function = some (fun _ _ => 0) ∧
      1 ≤ 1 ∧ 1 < walkback_threshold 3) ∧
    ((gsn_init ⟨some 2, 3, 1, some (fun x => x), some (fun x => x),
        some (fun _ _ => 0)⟩).1 = ["Not enough walkbacks for the layers!"] ∧
      (gsn_init ⟨some 2, 3, 1, some (fun x => x), some (fun x => x),
        some (fun _ _ => 0)⟩).2 =
        Except.ok ⟨2, 3, 1, fun x => x, fun x => x, fun _ _ => 0⟩ ∧
      ∀ K2, ¬ K2 < walkback_threshold 3 →
        (gsn_init { (⟨some 2, 3, 1, some (fun x => x), some (fun x => x),
            some (fun _ _ => 0)⟩ : GsnArgs) with walkbacks := K2 }).1 = [] ∧
        (gsn_init { (⟨some 2, 3, 1, some (fun x => x), some (fun x => x),
            some (fun _ _ => 0)⟩ : GsnArgs) with walkbacks := K2 }).2 =
          Except.ok ⟨2, 3, K2, fun x => x, fun x => x, fun _ _ => 0⟩) :=
  ⟨⟨rfl, rfl, rfl, rfl, le_refl 1, by decide⟩,
    insufficient_walkbacks_warn_only
      ⟨some 2, 3, 1, some (fun x => x), some (fun x => x), some (fun _ _ => 0)⟩
      2 (fun x => x) (fun x => x) (fun _ _ => 0) rfl rfl rfl rfl (le_refl 1) (by decide)⟩

/-! Characterization of pack_hiddens and unpack_hiddens. -/

theorem pack_aux_cons_even (idx : ℕ) (h : idx % 2 = 0) (a : Vec) (l : List Vec) :
    pack_aux idx (a :: l) = pack_aux (idx+1) l := by
  simp [pack_aux, h]

theorem pack_aux_cons_odd (idx : ℕ) (h : idx % 2 = 1) (a : Vec) (l : List Vec) :
    pack_aux idx (a :: l) = a :: pack_aux (idx+1) l := by
  simp [pack_aux, h]

theorem pack_aux_mod2 (l : List Vec) (idx : ℕ) : pack_aux (idx + 2) l = pack_aux idx l := by
  induction l generalizing idx with
  | nil => rfl
  | cons a rest ih =>
    by_cases h : idx % 2 = 0
    · rw [pack_aux_cons_even _ h, pack_aux_cons_even (idx+2) (by omega)]
      have e : idx + 2 + 1 = idx + 1 + 2 := by omega
      rw [e, ih (idx+1)]
    · rw [pack_aux_cons_odd idx (by omega), pack_aux_cons_odd (idx+2) (by omega)]
      have e : idx + 2 + 1 = idx + 1 + 2 := by omega
      rw [e, ih (idx+1)]

theorem pack_aux_zero_cons2 (a b : Vec) (l : List Vec) :
    pack_aux 0 (a :: b :: l) = b :: pack_aux 0 l := by
  rw [pack_aux_cons_even 0 (by norm_num), pack_aux_cons_odd 1 (by norm_num)]
  rw [show (1:ℕ)+1 = 0+2 from by omega, pack_aux_mod2]

theorem pack_aux_zero_length : ∀ (l : List Vec), (pack_aux 0 l).length = l.length / 2
  | [] => by simp [pack_aux]
  | [a] => by
    rw [pack_aux_cons_even 0 (by norm_num)]
    simp [pack_aux]
  | a :: b :: rest => by
    rw [pack_aux_zero_cons2]
    simp only [List.length_cons]
    rw [pack_aux_zero_length rest]
    omega

theorem pack_aux_zero_getD : ∀ (l : List Vec) (k : ℕ),
    (pack_aux 0 l).getD k [] = l.getD (2*k+1) []
  | [], k => by simp [pack_aux]
  | [a], k => by
    rw [pack_aux_cons_even 0 (by norm_num)]
    simp [pack_aux, List.getD_cons_succ]
  | a :: b :: rest, 0 => by
    rw [pack_aux_zero_cons2]
    simp
  | a :: b :: rest, k+1 => by
    rw [pack_aux_zero_cons2]
    simp only [List.getD_cons_succ]
    have e : 2*(k+1) = 2*k+1+1 := by ring
    rw [e]
    simp only [List.getD_cons_succ]
    exact pack_aux_zero_getD rest k

theorem pack_aux_zero_mem_length (l : List Vec) (H : ℕ)
    (h : ∀ k, 2*k+1 < l.length → (l.getD (2*k+1) []).length = H) :
    ∀ v ∈ pack_aux 0 l, v.length = H := by
  intro v hv
  obtain ⟨k, hk, hgd⟩ := mem_getD (pack_aux 0 l) v [] hv
  rw [pack_aux_zero_getD] at hgd
  rw [pack_aux_zero_length] at hk
  rw [← hgd]
  exact h k (by omega)

theorem flatten_block (H : ℕ) : ∀ (vs : List Vec) (k : ℕ), (∀ v ∈ vs, v.length = H) →
    (vs.flatten.drop (k * H)).take H = vs.getD k []
  | [], k, _ => by simp
  | v :: vs, 0, h => by
    simp only [List.flatten_cons, Nat.zero_mul, List.drop_zero, List.getD_cons_zero]
    have hv : v.length = H := h v (by simp)
    rw [← hv, List.take_left]
  | v :: vs, k+1, h => by
    simp only [List.flatten_cons, List.getD_cons_succ]
    have hv : v.length = H := h v (by simp)
    have e : (k+1) * H = v.length + k * H := by rw [hv]; ring
    rw [e, List.drop_append]
    exact flatten_block H vs k (fun x hx => h x (by simp [hx]))

/-- Cons form of the unpack_hiddens loop: the appended entries do not
depend on the accumulated list (the zeros are shaped by the weight matrix
alone). -/
def unpack_tail (t : Vec) (sz : List ℕ) : ℕ → List Mat → List Vec
  | _, [] => []
  | idx, wi :: rest =>
    (if idx % 2 ≠ 0 then List.replicate (width wi) 0
     else colSlice t ((idx/2) * sz.getD idx 0) ((idx/2+1) * sz.getD (idx+1) 0)) ::
      unpack_tail t sz (idx+1) rest

theorem unpack_aux_eq (t : Vec) (sz : List ℕ) :
    ∀ (ws : List Mat) (idx : ℕ) (h_list : List Vec),
    unpack_aux t sz idx h_list ws = h_list ++ unpack_tail t sz idx ws
  | [], idx, h_list => by simp [unpack_aux, unpack_tail]
  | wi :: rest, idx, h_list => by
    by_cases h : idx % 2 ≠ 0
    · simp only [unpack_aux, unpack_tail, if_pos h]
      rw [unpack_aux_eq t sz rest (idx+1) _, zeros_like_matDot, List.append_assoc]
      rfl
    · simp only [unpack_aux, unpack_tail, if_neg h]
      rw [unpack_aux_eq t sz rest (idx+1) _, List.append_assoc]
      rfl

theorem unpack_hiddens_eq (X : Vec) (ws : List Mat) (sz : List ℕ) (t : Vec) :
    unpack_hiddens X ws sz t = zeros_like X :: unpack_tail t sz 0 ws := by
  rw [unpack_hiddens, unpack_aux_eq]
  rfl

theorem unpack_tail_length (t : Vec) (sz : List ℕ) :
    ∀ (ws : List Mat) (idx : ℕ), (unpack_tail t sz idx ws).length = ws.length
  | [], _ => rfl
  | wi :: rest, idx => by
    simp only [unpack_tail, List.length_cons]
    rw [unpack_tail_length t sz rest (idx+1)]

theorem unpack_tail_getD (t : Vec) (sz : List ℕ) :
    ∀ (ws : List Mat) (idx j : ℕ), j < ws.length →
    (unpack_tail t sz idx ws).getD j [] =
      if (idx + j) % 2 ≠ 0 then List.replicate (width (ws.getD j [])) 0
      else colSlice t (((idx+j)/2) * sz.getD (idx+j) 0) (((idx+j)/2+1) * sz.getD (idx+j+1) 0)
  | [], idx, j, hj => by simp at hj
  | wi :: rest, idx, 0, hj => by
    simp only [unpack_tail, List.getD_cons_zero, Nat.add_zero]
  | wi :: rest, idx, j+1, hj => by
    simp only [unpack_tail, List.getD_cons_succ]
    rw [unpack_tail_getD t sz rest (idx+1) j (by simpa using hj)]
    have e : idx + 1 + j = idx + (j+1) := by omega
    rw [e]

/-! The consecutive H-wide column slices taken by unpack_hiddens. -/

def sliceList (t : Vec) (H k c : ℕ) : List Vec :=
  (List.range c).map (fun j => (t.drop ((k+j)*H)).take H)

theorem sliceList_succ (t : Vec) (H k c : ℕ) :
    sliceList t H k (c+1) = (t.drop (k*H)).take H :: sliceList t H (k+1) c := by
  simp only [sliceList, List.range_succ_eq_map, List.map_cons, List.map_map, Nat.add_zero]
  congr 1
  apply List.map_congr_left
  intro x _
  have hx : k + Nat.succ x = k + 1 + x := by omega
  simp only [Function.comp_apply, hx]

theorem sliceList_shift (t : Vec) (H k c : ℕ) :
    sliceList t H (k+1) c = sliceList (t.drop H) H k c := by
  simp only [sliceList]
  apply List.map_congr_left
  intro x _
  rw [List.drop_drop]
  congr 2
  ring

theorem flatten_sliceList (H c : ℕ) (t : Vec) (hlen : t.length = c * H) :
    (sliceList t H 0 c).flatten = t := by
  induction c generalizing t with
  | zero =>
    have ht : t = [] := List.length_eq_zero.mp (by omega)
    simp [sliceList, ht]
  | succ c ih =>
    rw [sliceList_succ, List.flatten_cons, sliceList_shift]
    have hmul : (c+1) * H = c * H + H := by ring
    rw [ih (t.drop H) (by rw [List.length_drop]; omega)]
    simpa using List.take_append_drop H t

theorem pack_unpack_tail (t : Vec) (H : ℕ) (sz : List ℕ) :
    ∀ (ws : List Mat) (idx : ℕ),
    (∀ m, 1 ≤ m → m ≤ idx + ws.length → sz.getD m 0 = H) →
    pack_aux (idx + 1) (unpack_tail t sz idx ws) =
      sliceList t H ((idx+1)/2) (if idx % 2 = 0 then (ws.length + 1)/2 else ws.length / 2)
  | [], idx, hsz => by
    by_cases h : idx % 2 = 0 <;> simp [unpack_tail, pack_aux, sliceList, h]
  | wi :: rest, idx, hsz => by
    by_cases h : idx % 2 = 0
    · simp only [unpack_tail, if_neg (by omega : ¬ idx % 2 ≠ 0)]
      rw [pack_aux_cons_odd (idx+1) (by omega)]
      have e1 : idx + 1 + 1 = (idx + 1) + 1 := rfl
      rw [pack_unpack_tail t H sz rest (idx+1)
        (fun m h1 h2 => hsz m h1 (by simp only [List.length_cons]; omega))]
      rw [if_neg (by omega : ¬ (idx+1) % 2 = 0), if_pos h]
      simp only [List.length_cons]
      have hcount : (rest.length + 1 + 1)/2 = rest.length/2 + 1 := by omega
      have ehalf : (idx+1)/2 = idx/2 := by omega
      rw [hcount, ehalf, sliceList_succ]
      congr 1
      · unfold colSlice
        have hup : sz.getD (idx+1) 0 = H :=
          hsz (idx+1) (by omega) (by simp only [List.length_cons]; omega)
        rw [hup]
        by_cases h0 : idx = 0
        · subst h0
          norm_num
        · have hlow : sz.getD idx 0 = H := hsz idx (by omega) (by omega)
          rw [hlow]
          have e2 : (idx/2+1) * H - (idx/2) * H = H := by
            have : (idx/2+1) * H = idx/2 * H + H := by ring
            omega
          rw [e2]
      · have ek : (idx+1+1)/2 = idx/2 + 1 := by omega
        rw [ek]
    · simp only [unpack_tail, if_pos (by omega : idx % 2 ≠ 0)]
      rw [pack_aux_cons_even (idx+1) (by omega)]
      rw [pack_unpack_tail t H sz rest (idx+1)
        (fun m h1 h2 => hsz m h1 (by simp only [List.length_cons]; omega))]
      rw [if_pos (by omega : (idx+1) % 2 = 0), if_neg h]
      simp only [List.length_cons]
      have ek : (idx+1+1)/2 = (idx+1)/2 := by omega
      rw [ek]

theorem getD_replicate_of_lt (H L m : ℕ) (h : m < L) :
    (List.replicate L (H : ℕ)).getD m 0 = H := by
  induction L generalizing m with
  | zero => omega
  | succ L ih =>
    cases m with
    | zero => simp [List.replicate_succ]
    | succ m =>
      rw [List.replicate_succ, List.getD_cons_succ]
      exact ih m (by omega)

theorem layerSizes_getD_zero (N H L : ℕ) : (layerSizes N H L).getD 0 0 = N := rfl

theorem layerSizes_getD_pos (N H L m : ℕ) (h1 : 1 ≤ m) (h2 : m ≤ L) :
    (layerSizes N H L).getD m 0 = H := by
  unfold layerSizes
  obtain ⟨m', rfl⟩ : ∃ m', m = m' + 1 := ⟨m - 1, by omega⟩
  rw [List.getD_cons_succ]
  exact getD_replicate_of_lt H L m' (by omega)

theorem count_odd_range (n : ℕ) :
    ((List.range n).filter (fun i => i % 2 = 1)).length = n / 2 := by
  induction n with
  | zero => simp
  | succ n ih =>
    rw [List.range_succ, List.filter_append, List.length_append, ih]
    by_cases h : n % 2 = 1
    · simp only [List.filter_cons, List.filter_nil, h]
      simp
      omega
    · simp only [List.filter_cons, List.filter_nil]
      simp [h]
      omega

theorem oddWidthSum_layerSizes (N H L : ℕ) :
    oddWidthSum (layerSizes N H L) = ((L+1)/2) * H := by
  unfold oddWidthSum
  have hlen : (layerSizes N H L).length = L + 1 := by simp [layerSizes]
  rw [hlen]
  have hall : ∀ x ∈ (List.range (L+1)).filter (fun i => i % 2 = 1),
      (layerSizes N H L).getD x 0 = H := by
    intro x hx
    rw [List.mem_filter, List.mem_range] at hx
    obtain ⟨hx1, hx2⟩ := hx
    have hodd : x % 2 = 1 := by simpa using hx2
    exact layerSizes_getD_pos N H L x (by omega) (by omega)
  rw [sum_map_const hall, count_odd_range]

/-- C3: for every tensor t whose feature width equals the sum of the
odd-indexed layer widths of the model's layer-size schedule,
pack_hiddens (unpack_hiddens t) = t exactly. -/
theorem pack_unpack_roundtrip (N H L : ℕ) (X : Vec) (ws : List Mat) (t : Vec)
    (hws : ws.length = L) (ht : t.length = oddWidthSum (layerSizes N H L)) :
    pack_hiddens (unpack_hiddens X ws (layerSizes N H L) t) = t := by
  rw [oddWidthSum_layerSizes] at ht
  rw [pack_hiddens, unpack_hiddens_eq, pack_aux_cons_even 0 (by norm_num)]
  have hmain := pack_unpack_tail t H (layerSizes N H L) ws 0
    (fun m h1 h2 => layerSizes_getD_pos N H L m h1 (by rw [hws] at h2; omega))
  rw [if_pos (show (0:ℕ) % 2 = 0 by norm_num),
    show ((0:ℕ)+1)/2 = 0 from by norm_num, hws] at hmain
  rw [hmain]
  exact flatten_sliceList H ((L+1)/2) t ht

/-- Witness for pack_unpack_roundtrip at a concrete one-layer model. -/
theorem pack_unpack_roundtrip_witness :
    (([[[(0:ℚ)]]] : List Mat).length = 1 ∧
      ([(5:ℚ)] : Vec).length = oddWidthSum (layerSizes 1 1 1)) ∧
    pack_hiddens (unpack_hiddens [0] [[[0]]] (layerSizes 1 1 1) [5]) = [5] :=
  ⟨⟨rfl, by decide⟩,
    pack_unpack_roundtrip 1 1 1 [0] [[[0]]] [5] rfl (by decide)⟩

/-- C5: for every hidden-state list h whose tensor shapes match the
layer-size schedule, unpack_hiddens (pack_hiddens h) is a list of L+1
tensors whose odd-indexed entries equal the corresponding entries of h
exactly and whose even-indexed entries (including the visible layer h0)
are zero-filled tensors of the shape implied by the weight chain. -/
theorem unpack_pack_roundtrip (N H L : ℕ) (X : Vec) (ws : List Mat) (h : List Vec)
    (hX : X.length = N) (hws : WeightsShape ws (layerSizes N H L))
    (hh : ShapeOk (layerSizes N H L) h) :
    (unpack_hiddens X ws (layerSizes N H L) (pack_hiddens h)).length = L + 1 ∧
    (∀ i, i ≤ L → i % 2 = 1 →
      (unpack_hiddens X ws (layerSizes N H L) (pack_hiddens h)).getD i [] = h.getD i []) ∧
    (∀ i, i ≤ L → i % 2 = 0 →
      (unpack_hiddens X ws (layerSizes N H L) (pack_hiddens h)).getD i [] =
        List.replicate ((layerSizes N H L).getD i 0) 0) := by
  have hsl : (layerSizes N H L).length = L + 1 := by simp [layerSizes]
  have hwsl : ws.length = L := by have := hws.1; omega
  have hhl : h.length = L + 1 := by rw [hh.1, hsl]
  have hmem : ∀ v ∈ pack_aux 0 h, v.length = H := by
    apply pack_aux_zero_mem_length
    intro k hk
    rw [hh.2 (2*k+1)]
    exact layerSizes_getD_pos N H L (2*k+1) (by omega) (by omega)
  rw [unpack_hiddens_eq]
  refine ⟨?_, ?_, ?_⟩
  · simp [unpack_tail_length, hwsl]
  · intro i hiL hodd
    obtain ⟨j, rfl⟩ : ∃ j, i = j + 1 := ⟨i - 1, by omega⟩
    have hjws : j < ws.length := by omega
    rw [List.getD_cons_succ,
      unpack_tail_getD (pack_hiddens h) (layerSizes N H L) ws 0 j hjws,
      if_neg (show ¬ ((0 + j) % 2 ≠ 0) by omega)]
    simp only [Nat.zero_add]
    obtain ⟨k, rfl⟩ : ∃ k, j = 2 * k := ⟨j / 2, by omega⟩
    have e1 : 2*k/2 = k := by omega
    rw [e1, layerSizes_getD_pos N H L (2*k+1) (by omega) (by omega)]
    have ha : k * (layerSizes N H L).getD (2*k) 0 = k * H := by
      cases k with
      | zero => simp
      | succ k' => rw [layerSizes_getD_pos N H L (2*(k'+1)) (by omega) (by omega)]
    unfold colSlice
    rw [ha]
    have e2 : (k+1) * H - k * H = H := by
      have : (k+1) * H = k * H + H := by ring
      omega
    rw [e2, pack_hiddens, flatten_block H (pack_aux 0 h) k hmem, pack_aux_zero_getD]
  · intro i hiL heven
    cases i with
    | zero =>
      rw [List.getD_cons_zero, layerSizes_getD_zero]
      unfold zeros_like
      rw [hX]
    | succ j =>
      have hjws : j < ws.length := by omega
      rw [List.getD_cons_succ,
        unpack_tail_getD (pack_hiddens h) (layerSizes N H L) ws 0 j hjws,
        if_pos (show (0 + j) % 2 ≠ 0 by omega)]
      congr 1
      have := (hws.2 j (by omega)).2.2
      rw [this]

/-- Witness for unpack_pack_roundtrip at a concrete one-layer model. -/
theorem unpack_pack_roundtrip_witness :
    (([(0:ℚ)] : Vec).length = 1 ∧ WeightsShape [[[(0:ℚ)]]] (layerSizes 1 1 1) ∧
      ShapeOk (layerSizes 1 1 1) [[2], [3]]) ∧
    ((unpack_hiddens [0] [[[0]]] (layerSizes 1 1 1) (pack_hiddens [[2], [3]])).length = 1 + 1 ∧
      (∀ i, i ≤ 1 → i % 2 = 1 →
        (unpack_hiddens [0] [[[0]]] (layerSizes 1 1 1) (pack_hiddens [[2], [3]])).getD i [] =
          ([[2], [3]] : List Vec).getD i []) ∧
      (∀ i, i ≤ 1 → i % 2 = 0 →
        (unpack_hiddens [0] [[[0]]] (layerSizes 1 1 1) (pack_hiddens [[2], [3]])).getD i [] =
          List.replicate ((layerSizes 1 1 1).getD i 0) 0)) := by
  have hws : WeightsShape [[[(0:ℚ)]]] (layerSizes 1 1 1) := by
    unfold WeightsShape MatShape width layerSizes
    decide
  have hh : ShapeOk (layerSizes 1 1 1) [[2], [3]] := by
    refine ⟨rfl, fun i => ?_⟩
    match i with
    | 0 => rfl
    | 1 => rfl
    | (n+2) =>
      rw [getD_of_le_length _ _ _ (by simp only [List.length_cons, List.length_nil]; omega),
        getD_of_le_length _ _ _ (by
          simp only [layerSizes, List.length_cons, List.length_replicate]
          omega)]
      rfl
  exact ⟨⟨rfl, hws, hh⟩, unpack_pack_roundtrip 1 1 1 [0] [[[0]]] [[2], [3]] rfl hws hh⟩
